import Mathlib

/-!
# Verification of the credential & token security layer

Shallow embedding of the `actex-dev/trade-server` credential/token layer:
`EncryptionRepository` (password hashing, field encryption, JWT issuance and
verification, one-time-code generation), the request authentication gates
(`require_user_auth`, `require_refresh_auth`), the auth service (`sign_in`)
and the password-reset service (`verify_code`).

External crates (jsonwebtoken, serde_json, argon2, aes-gcm, base64, sha2,
uuid, OsRng) are not part of the repository; their behaviour is modelled from
the spec symbolically: serializations are injective codecs with verified
inverses, MACs and hashes are perfect (collision-free by construction), and
randomness (salts, nonces, byte streams) is passed in explicitly.  Machine
integers (`i64` timestamps) are modelled as `Int`; `usize` as `Nat`.
-/

namespace TradeServer

/-! ## Low-level codec on lists of characters

Modelled from the spec: the wire formats (base64url, JSON text, the JWT
compact form, the PHC digest string) are modelled by one injective
length-prefixed codec with a verified inverse; the properties the claims use
are exactly round-tripping and injectivity, not the concrete alphabet. -/

/-- A decimal digit rendered as a character. -/
def digitChar (d : Nat) : Char :=
  Char.ofNat (48 + d)

/-- Is the character an ASCII decimal digit? -/
def isDigitCh (c : Char) : Bool :=
  48 ≤ c.toNat && c.toNat ≤ 57

/-- Base-10 digits of `n`, little-endian, computed with explicit fuel so the
definition is structurally recursive (kernel-evaluable). -/
def natDigits : Nat → Nat → List Nat
  | _, 0 => []
  | 0, _ + 1 => []
  | f + 1, n + 1 => (n + 1) % 10 :: natDigits f ((n + 1) / 10)

/-- Encode a natural number: its base-10 digits (little-endian) then `':'`. -/
def encNat (n : Nat) : List Char :=
  (natDigits n n).map digitChar ++ [':']

/-- Read a maximal run of digit characters, returning their values. -/
def readDigits : List Char → (List Nat × List Char)
  | [] => ([], [])
  | c :: cs =>
    if isDigitCh c then
      let p := readDigits cs
      ((c.toNat - 48) :: p.1, p.2)
    else ([], c :: cs)

/-- Decode a natural number encoded by `encNat`, returning the remainder. -/
def decNat (cs : List Char) : Option (Nat × List Char) :=
  let p := readDigits cs
  match p.2 with
  | ':' :: r => some (Nat.ofDigits 10 p.1, r)
  | _ => none

/-- Encode a string: its length then its characters verbatim. -/
def encStr (s : String) : List Char :=
  encNat s.data.length ++ s.data

/-- Decode a string encoded by `encStr`. -/
def decStr (cs : List Char) : Option (String × List Char) :=
  match decNat cs with
  | some (n, r) =>
    if n ≤ r.length then some (String.mk (r.take n), r.drop n) else none
  | none => none

/-- Encode an integer: a sign tag then a natural number. -/
def encInt : Int → List Char
  | .ofNat n => 'p' :: encNat n
  | .negSucc n => 'm' :: encNat n

/-- Decode an integer encoded by `encInt`. -/
def decInt : List Char → Option (Int × List Char)
  | 'p' :: cs => (decNat cs).map fun p => (Int.ofNat p.1, p.2)
  | 'm' :: cs => (decNat cs).map fun p => (Int.negSucc p.1, p.2)
  | _ => none

/-! ## JSON values

Modelled from the spec: `serde_json::Value`.  Numbers are restricted to `Int`
(the only numeric field the layer touches is the `i64` timestamp `exp`);
floating-point numbers are out of scope of the claims. -/

/-- The model of `serde_json::Value`. -/
inductive Json where
  | null
  | bool (b : Bool)
  | num (n : Int)
  | str (s : String)
  | arr (elems : List Json)
  | obj (fields : List (String × Json))

/-- Look a key up in an object's field list (first occurrence wins). -/
def jLookup (key : String) : List (String × Json) → Option Json
  | [] => none
  | (k, v) :: fs => if k = key then some v else jLookup key fs

/-- `Value::as_str`. -/
def Json.asStr : Json → Option String
  | .str s => some s
  | _ => none

mutual

/-- Modelled from the spec: `serde_json::to_string`, as an injective codec. -/
def jencode : Json → List Char
  | .null => ['n']
  | .bool true => ['t']
  | .bool false => ['f']
  | .num i => 'i' :: encInt i
  | .str s => 's' :: encStr s
  | .arr xs => 'a' :: (encNat xs.length ++ jencodeList xs)
  | .obj fs => 'o' :: (encNat fs.length ++ jencodeFields fs)

/-- Encode array elements in order. -/
def jencodeList : List Json → List Char
  | [] => []
  | x :: xs => jencode x ++ jencodeList xs

/-- Encode object fields in order. -/
def jencodeFields : List (String × Json) → List Char
  | [] => []
  | (k, v) :: fs => encStr k ++ (jencode v ++ jencodeFields fs)

end

mutual

/-- Modelled from the spec: `serde_json::from_str`'s parser.  The fuel index
decreases at every recursive call, so the recursion is structural on fuel
and the parser evaluates inside the kernel. -/
def jparse : Nat → List Char → Option (Json × List Char)
  | 0, _ => none
  | fuel + 1, cs =>
    match cs with
    | [] => none
    | c :: cs =>
      if c = 'n' then some (.null, cs)
      else if c = 't' then some (.bool true, cs)
      else if c = 'f' then some (.bool false, cs)
      else if c = 'i' then (decInt cs).map fun p => (.num p.1, p.2)
      else if c = 's' then (decStr cs).map fun p => (.str p.1, p.2)
      else if c = 'a' then
        match decNat cs with
        | some (n, r) =>
          match jparseList fuel n r with
          | some (xs, r2) => some (.arr xs, r2)
          | none => none
        | none => none
      else if c = 'o' then
        match decNat cs with
        | some (n, r) =>
          match jparseFields fuel n r with
          | some (fs, r2) => some (.obj fs, r2)
          | none => none
        | none => none
      else none

/-- Parse `n` array elements. -/
def jparseList : Nat → Nat → List Char → Option (List Json × List Char)
  | _, 0, r => some ([], r)
  | 0, _ + 1, _ => none
  | fuel + 1, n + 1, r =>
    match jparse fuel r with
    | some (x, r2) =>
      match jparseList fuel n r2 with
      | some (xs, r3) => some (x :: xs, r3)
      | none => none
    | none => none

/-- Parse `n` object fields. -/
def jparseFields : Nat → Nat → List Char → Option (List (String × Json) × List Char)
  | _, 0, r => some ([], r)
  | 0, _ + 1, _ => none
  | fuel + 1, n + 1, r =>
    match decStr r with
    | some (k, r1) =>
      match jparse fuel r1 with
      | some (v, r2) =>
        match jparseFields fuel n r2 with
        | some (fs, r3) => some ((k, v) :: fs, r3)
        | none => none
      | none => none
    | none => none

end

/-- Modelled from the spec: `serde_json::to_string` at the string type. -/
def jsonPrint (j : Json) : String :=
  String.mk (jencode j)

/-- Modelled from the spec: `serde_json::from_str::<Value>`; the whole input
must be one JSON document. -/
def jsonParse (s : String) : Option Json :=
  match jparse (s.data.length + 1) s.data with
  | some (j, []) => some j
  | _ => none

/-- A leaf JSON value (no nesting). -/
def Json.isLeaf : Json → Bool
  | .null | .bool _ | .num _ | .str _ => true
  | _ => false

/-! ## Signed tokens

Modelled from the spec: the `jsonwebtoken` crate.  The compact token string
is an injective encoding of (header algorithm, payload, signature); the HMAC
signature is symbolic — a perfect MAC recording the algorithm, key and signed
message, verified by recomputation. -/

/-- JWT signing algorithms (the HMAC family plus representatives of the
rejected algorithms: `none` and an asymmetric one). -/
inductive Alg where
  | HS256
  | HS384
  | HS512
  | noAlg
  | RS256
  deriving DecidableEq

/-- The structural content of a compact JWT string. -/
structure Jwt where
  alg : Alg
  payload : String
  sigAlg : Alg
  sigKey : String
  sigMsg : String
  deriving DecidableEq

/-- One-character tag for an algorithm. -/
def encAlg : Alg → Char
  | .HS256 => '2'
  | .HS384 => '3'
  | .HS512 => '5'
  | .noAlg => 'N'
  | .RS256 => 'R'

/-- Decode an algorithm tag. -/
def decAlg : Char → Option Alg
  | '2' => some .HS256
  | '3' => some .HS384
  | '5' => some .HS512
  | 'N' => some .noAlg
  | 'R' => some .RS256
  | _ => none

/-- Modelled from the spec: the compact serialization of a signed token.
It starts with a non-whitespace, non-quote character and ends with `'.'`,
mirroring the base64url compact form's alphabet at the level the
normalization code relies on. -/
def jwtEncode (t : Jwt) : List Char :=
  'J' :: encAlg t.alg ::
    (encStr t.payload ++ (encAlg t.sigAlg :: (encStr t.sigKey ++ encStr t.sigMsg)) ++ ['.'])

/-- Modelled from the spec: parsing a compact token string back into its
structural content; the whole string must be exactly one token. -/
def jwtParse (s : String) : Option Jwt :=
  match s.data with
  | 'J' :: c1 :: r0 =>
    match decAlg c1 with
    | some alg =>
      match decStr r0 with
      | some (payload, r1) =>
        match r1 with
        | c2 :: r2 =>
          match decAlg c2 with
          | some sigAlg =>
            match decStr r2 with
            | some (sigKey, r3) =>
              match decStr r3 with
              | some (sigMsg, r4) =>
                match r4 with
                | ['.'] => some ⟨alg, payload, sigAlg, sigKey, sigMsg⟩
                | _ => none
              | none => none
            | none => none
          | none => none
        | [] => none
      | none => none
    | none => none
  | _ => none

/-! ## Token-string normalization (`str::trim`, `str::trim_matches`) -/

/-- ASCII whitespace (the characters `str::trim` strips that can occur here). -/
def isWs (c : Char) : Bool :=
  c = ' ' || c = '\t' || c = '\n' || c = '\r'

/-- Strip characters satisfying `p` from both ends of a character list. -/
def trimBy (p : Char → Bool) (l : List Char) : List Char :=
  ((l.dropWhile p).reverse.dropWhile p).reverse

/-- `str::trim` (restricted to ASCII whitespace). -/
def rustTrim (s : String) : String :=
  String.mk (trimBy isWs s.data)

/-- `str::trim_matches(c)`. -/
def trimMatches (c : Char) (s : String) : String :=
  String.mk (trimBy (fun x => x = c) s.data)

/-- The token normalization performed by `decode_token` and by the gates:
`token.trim().trim_matches('"')`. -/
def normalizeToken (s : String) : String :=
  trimMatches '"' (rustTrim s)

/-! ## Claims and token classes

Embedded from `src/packages/repository/src/repositories/encryption/data.rs`. -/

/-- `Sub`: the token's subject payload, raw JSON or a JSON string. -/
inductive Sub where
  | Json (v : Json)
  | Text (s : String)

/-- `Claims { sub, exp }`. -/
structure Claims where
  sub : Sub
  exp : Int

/-- `Claims::new_text`: `sub = Text(serde_json::to_string(payload))`,
`exp = now + expiry_seconds`.  The serializable payload is modelled by its
`serde_json` value; serialization of such a value never fails, so the
`Result` of the source is always `Ok`. -/
def Claims.new_text (now : Int) (payload : Json) (expiry_seconds : Int) : Claims :=
  { sub := Sub.Text (jsonPrint payload), exp := now + expiry_seconds }

/-- Serde serialization of `Sub` (`#[serde(untagged)]`). -/
def Sub.toJson : Sub → TradeServer.Json
  | .Json v => v
  | .Text s => .str s

/-- Serde serialization of `Claims`. -/
def Claims.toJson (c : Claims) : TradeServer.Json :=
  .obj [("sub", c.sub.toJson), ("exp", .num c.exp)]

/-- Serde deserialization of `Claims` from a `serde_json::Value`
(`from_value::<Claims>`).  `Sub` is `#[serde(untagged)]` with the variant
`Json(serde_json::Value)` declared first, and a `Value` deserializes from any
JSON content, so deserialization always yields the `Json` variant. -/
def Claims.fromJson : Json → Option Claims
  | .obj fs =>
    match jLookup "sub" fs with
    | some sv =>
      match jLookup "exp" fs with
      | some (.num e) => some { sub := Sub.Json sv, exp := e }
      | _ => none
    | none => none
  | _ => none

/-- `TokenParams { key, expiry_seconds }`. -/
structure TokenParams where
  key : String
  expiry_seconds : Int
  deriving DecidableEq

/-- The process environment (`std::env::var`). -/
def Env : Type := String → Option String

/-- `Token::user_access_token()`. -/
def Token.user_access_token (env : Env) : TokenParams :=
  { key := (env "USER_ACCESS_TOKEN").getD "default_user_access_token"
    expiry_seconds := 72 * 3600 }

/-- `Token::user_refresh_token()`. -/
def Token.user_refresh_token (env : Env) : TokenParams :=
  { key := (env "USER_REFRESH_TOKEN").getD "default_user_refresh_token"
    expiry_seconds := 100 * 24 * 3600 }

/-- `Token::web_access_token()`. -/
def Token.web_access_token (env : Env) : TokenParams :=
  { key := (env "WEB_ACCESS_TOKEN").getD "default_web_token"
    expiry_seconds := 5 * 60 }

/-! ## `EncryptionRepository`: token issuance and verification

Embedded from `src/packages/repository/src/repositories/encryption/mod.rs`;
the `jsonwebtoken` crate's `encode`/`decode` are modelled from the spec. -/

/-- The error type of the encryption repository (`EncryptionError`). -/
inductive EncryptionError where
  | HashError (msg : String)
  | VerifyError (msg : String)
  | JwtError (msg : String)
  deriving DecidableEq

/-- Modelled from the spec: `jsonwebtoken::encode(&Header::default(), claims,
key)` — `Header::default()` declares HS256; the claims are serialized and
signed with the key. -/
def jwtEncodeToken (key : String) (claims : Claims) : String :=
  String.mk (jwtEncode
    { alg := .HS256, payload := jsonPrint claims.toJson,
      sigAlg := .HS256, sigKey := key, sigMsg := jsonPrint claims.toJson })

/-- The `exp` claim used for expiry validation, read from the decoded
payload (validation requires the claims to be a JSON object carrying an
integer `exp`). -/
def jExp : Json → Option Int
  | .obj fs =>
    match jLookup "exp" fs with
    | some (.num e) => some e
    | _ => none
  | _ => none

/-- Modelled from the spec: `jsonwebtoken::decode::<serde_json::Value>` with
a validation whose algorithm set is `algs` and whose required claim is `exp`.
It rejects a token whose declared algorithm is outside `algs`, whose
signature does not verify under `key`, whose payload is not a JSON object
with an integer `exp`, or whose `expires_at` has passed (`exp < now`). -/
def jwtDecode (now : Int) (key : String) (algs : List Alg) (token : String) :
    Except String Json :=
  match jwtParse token with
  | none => .error "InvalidToken"
  | some t =>
    if t.alg ∈ algs then
      if t.sigAlg = t.alg ∧ t.sigKey = key ∧ t.sigMsg = t.payload then
        match jsonParse t.payload with
        | none => .error "InvalidToken"
        | some j =>
          match jExp j with
          | none => .error "MissingRequiredClaim(exp)"
          | some e => if e < now then .error "ExpiredSignature" else .ok j
      else .error "InvalidSignature"
    else .error "InvalidAlgorithm"

/-- `EncryptionRepository::create_token`: wraps the serialized payload in
`Claims::new_text` and signs it with the class key. -/
def create_token (now : Int) (payload : Json) (token_type : TokenParams) : String :=
  jwtEncodeToken token_type.key (Claims.new_text now payload token_type.expiry_seconds)

/-- `EncryptionRepository::decode_token`: normalizes the token string
(trim whitespace and surrounding quotes) and decodes it under the class key,
accepting only the HMAC algorithm family. -/
def decode_token (now : Int) (token_string : String) (token_type : TokenParams) :
    Except EncryptionError Json :=
  let token := normalizeToken token_string
  match jwtDecode now token_type.key [.HS256, .HS384, .HS512] token with
  | .ok j => .ok j
  | .error e => .error (.JwtError e)

/-! ## `EncryptionRepository`: password hashing

Modelled from the spec: the argon2 crate.  The memory-hard hash is symbolic —
a perfect (injective) one-way function of salt and password — and the PHC
digest string is the injective codec of the salt and the hash output, so
verification re-derives the hash under the embedded salt and compares. -/

/-- `EncryptionRepository::hash_password` with its fresh random salt made
explicit.  The source wraps the digest in `Result`; hashing with a valid
salt never fails, so the model is total. -/
def hash_password (salt : String) (plain : String) : String :=
  String.mk ('D' :: (encStr salt ++ encStr plain))

/-- Modelled from the spec: `PasswordHash::new` — parse the self-describing
digest string back into salt and hash output; fails on anything that is not
a well-formed digest. -/
def parseDigest (digest : String) : Option (String × String) :=
  match digest.data with
  | 'D' :: r =>
    match decStr r with
    | some (salt, r1) =>
      match decStr r1 with
      | some (pw, r2) =>
        match r2 with
        | [] => some (salt, pw)
        | _ => none
      | none => none
    | none => none
  | _ => none

/-- `EncryptionRepository::verify_password`: parse the digest (error on an
unparseable digest), recompute the hash of `plain` under the embedded salt
and compare; a mismatch is `Ok false`, not an error. -/
def verify_password (digest : String) (plain : String) : Except EncryptionError Bool :=
  match parseDigest digest with
  | none => .error (.VerifyError "invalid digest")
  | some (_, pw) => .ok (decide (pw = plain))

/-! ## `EncryptionRepository`: field encryption

Modelled from the spec: sha2, aes-gcm and base64.  `Sha256` is symbolic (only
its determinism and injectivity in the secret are used); AES-256-GCM is a
symbolic AEAD box that decrypts exactly the blobs produced under the same key
and nonce; base64url is an injective bytes-to-text codec with a verified
inverse.  Byte strings are modelled at Unicode-scalar granularity: `as_bytes`
maps each character to its scalar value and `String::from_utf8` rejects
invalid scalar values. -/

/-- Modelled from the spec: `str::as_bytes` (scalar-value granularity). -/
def stringToCodes (s : String) : List Nat :=
  s.data.map Char.toNat

/-- Modelled from the spec: `String::from_utf8`, failing on byte sequences
that are not valid text. -/
def codesToString (l : List Nat) : Option String :=
  if ∀ n ∈ l, Nat.isValidChar n then
    some (String.mk (l.map fun n => Char.ofNat n))
  else none

/-- Modelled from the spec: `Sha256::digest` of the service secret (only
determinism and injectivity are relied on). -/
def sha256 (s : String) : List Nat :=
  stringToCodes s

/-- Modelled from the spec: `Aes256Gcm::encrypt` — a symbolic AEAD box
binding key, nonce and plaintext. -/
def aeadEncrypt (key nonce pt : List Nat) : List Nat :=
  [key.length] ++ key ++ [nonce.length] ++ nonce ++ pt

/-- Modelled from the spec: `Aes256Gcm::decrypt` — succeeds exactly on blobs
produced by `aeadEncrypt` under the same key and nonce (tag mismatch
otherwise). -/
def aeadDecrypt (key nonce ct : List Nat) : Option (List Nat) :=
  let pre := [key.length] ++ key ++ [nonce.length] ++ nonce
  if pre.isPrefixOf ct then some (ct.drop pre.length) else none

/-- Modelled from the spec: `URL_SAFE_NO_PAD.encode` — an injective
bytes-to-text codec. -/
def b64Encode (bytes : List Nat) : String :=
  String.mk (bytes.map encNat).flatten

/-- Decoder loop for `b64Decode` (fuel-indexed). -/
def b64DecodeGo : Nat → List Char → Option (List Nat)
  | _, [] => some []
  | 0, _ :: _ => none
  | f + 1, c :: cs =>
    match decNat (c :: cs) with
    | some (n, r) => (b64DecodeGo f r).map (n :: ·)
    | none => none

/-- Modelled from the spec: `URL_SAFE_NO_PAD.decode`. -/
def b64Decode (s : String) : Option (List Nat) :=
  b64DecodeGo s.data.length s.data

/-- `EncryptionRepository::encrypt_data` with the random 96-bit nonce made
explicit: derive the key from the secret, AEAD-encrypt, emit
`base64url(nonce || ciphertext)`. -/
def encrypt_data (secret : String) (nonce : List Nat) (data : String) :
    Except EncryptionError String :=
  let key := sha256 secret
  let ciphertext := aeadEncrypt key nonce (stringToCodes data)
  .ok (b64Encode (nonce ++ ciphertext))

/-- `EncryptionRepository::decrypt_data`, instrumented: the second component
records whether the AEAD decryption primitive (`cipher.decrypt`) was
invoked.  Decode base64; reject raw blobs shorter than 12 bytes before any
AEAD call; split nonce (12 bytes) from ciphertext; AEAD-decrypt; decode the
plaintext bytes as text. -/
def decrypt_dataT (secret : String) (encrypted_data : String) :
    (Except EncryptionError String) × Bool :=
  let key := sha256 secret
  match b64Decode encrypted_data with
  | none => (.error (.JwtError "DecodeError"), false)
  | some raw =>
    if raw.length < 12 then
      (.error (.JwtError "Invalid encrypted data format"), false)
    else
      let nonce := raw.take 12
      let ciphertext := raw.drop 12
      match aeadDecrypt key nonce ciphertext with
      | none => (.error (.JwtError "aead error"), true)
      | some plaintext =>
        match codesToString plaintext with
        | some s => (.ok s, true)
        | none => (.error (.JwtError "invalid utf-8"), true)

/-- `EncryptionRepository::decrypt_data` (observable result). -/
def decrypt_data (secret : String) (encrypted_data : String) :
    Except EncryptionError String :=
  (decrypt_dataT secret encrypted_data).1

/-! ## `EncryptionRepository::create_code`

The OS RNG is made explicit as a byte stream `rng : Nat → Nat` (the i-th
random byte); `fuel` bounds how many bytes the unbounded source loop may
draw. -/

/-- The rejection-sampling loop of `create_code`: scan the byte stream,
discard bytes `≥ 250`, map accepted bytes to digits via `b % 10`, stop at
`length` digits (or when out of fuel). -/
def create_code_go (rng : Nat → Nat) (length : Nat) : Nat → Nat → List Char → List Char
  | _, 0, acc => acc
  | i, fuel + 1, acc =>
    if length ≤ acc.length then acc
    else
      let b := rng i
      if b < 250 then
        create_code_go rng length (i + 1) fuel (acc ++ [digitChar (b % 10)])
      else
        create_code_go rng length (i + 1) fuel acc

/-- `EncryptionRepository::create_code`. -/
def create_code (rng : Nat → Nat) (fuel : Nat) (length : Nat) : String :=
  String.mk (create_code_go rng length 0 fuel [])

/-- The accepted bytes among the first `n` draws of the stream. -/
def acceptedBytes (rng : Nat → Nat) (n : Nat) : List Nat :=
  ((List.range n).map rng).filter (fun b => b < 250)

/-! ## `AuthUser` and the request authentication gates

`AuthUser` and `AuthUser::from_claims` are embedded from
`src/src/dex/shared/data/mod.rs`; the gates from
`src/src/app/shared/middlewares/auth.rs`.  `Uuid` is modelled by its
canonical string (serde serializes it as a JSON string; the model accepts
any string where the uuid crate would also check the format). -/

/-- `AuthUser { id, first_name, email_address }`. -/
structure AuthUser where
  id : String
  first_name : String
  email_address : String
  deriving DecidableEq

/-- Serde serialization of `AuthUser`. -/
def AuthUser.toJson (u : AuthUser) : Json :=
  .obj [("id", .str u.id), ("first_name", .str u.first_name),
        ("email_address", .str u.email_address)]

/-- Serde deserialization of `AuthUser` from a `serde_json::Value`
(`from_value::<AuthUser>`). -/
def AuthUser.fromJson : Json → Option AuthUser
  | .obj fs =>
    match jLookup "id" fs with
    | some (.str i) =>
      match jLookup "first_name" fs with
      | some (.str f) =>
        match jLookup "email_address" fs with
        | some (.str e) => some ⟨i, f, e⟩
        | _ => none
      | _ => none
    | _ => none
  | _ => none

/-- `serde_json::from_str::<AuthUser>`. -/
def AuthUser.fromStr (s : String) : Option AuthUser :=
  (jsonParse s).bind AuthUser.fromJson

/-- `AuthUser::from_claims`: string subjects are parsed as serialized
`AuthUser`; raw JSON subjects that are strings likewise; other raw JSON
subjects are deserialized directly. -/
def AuthUser.from_claims (claims : Claims) : Except String AuthUser :=
  match claims.sub with
  | .Text s =>
    match AuthUser.fromStr s with
    | some u => .ok u
    | none => .error "invalid token claims"
  | .Json v =>
    match v.asStr with
    | some s =>
      match AuthUser.fromStr s with
      | some u => .ok u
      | none => .error "invalid token claims"
    | none =>
      match AuthUser.fromJson v with
      | some u => .ok u
      | none => .error "invalid token claims"

/-- `str::strip_prefix`. -/
def stripPrefix (p s : String) : Option String :=
  if p.data.isPrefixOf s.data then some (String.mk (s.data.drop p.data.length))
  else none

/-- The slice of an inbound request the gates read: the value of the
`Authorization` header, if present (header values are modelled as text; the
`to_str` UTF-8 check of the source cannot fail on them). -/
structure Request where
  authorization : Option String

/-- Outcome of a gate: short-circuit with an unauthorized response carrying
the given message, or run the downstream handler with the attached
principal. -/
inductive GateResult where
  | rejected (message : String)
  | admitted (user : AuthUser)
  deriving DecidableEq

/-- `require_user_auth`: the user-access gate.  Requires the `Bearer` scheme,
normalizes the token, verifies it under the user-access class, reconstructs
the `AuthUser` principal from the claims and attaches it. -/
def require_user_auth (env : Env) (now : Int) (req : Request) : GateResult :=
  match req.authorization with
  | none => .rejected "missing authorization header"
  | some auth_str =>
    match stripPrefix "Bearer " auth_str with
    | none => .rejected "invalid bearer token"
    | some token0 =>
      let token := trimMatches '"' (rustTrim token0)
      match decode_token now token (Token.user_access_token env) with
      | .error _ => .rejected "invalid or expired token"
      | .ok claim =>
        match
          (match claim.asStr with
           | some s => (jsonParse s).bind Claims.fromJson
           | none => Claims.fromJson claim) with
        | none => .rejected "invalid token claims"
        | some claims =>
          match AuthUser.from_claims claims with
          | .ok u => .admitted u
          | .error _ => .rejected "invalid token claims"

/-- `require_refresh_auth`: the refresh-token gate.  Same extraction and
normalization, verification under the user-refresh class, and an inline
subject reconstruction equal to `AuthUser::from_claims`. -/
def require_refresh_auth (env : Env) (now : Int) (req : Request) : GateResult :=
  match req.authorization with
  | none => .rejected "missing authorization header"
  | some auth_str =>
    match stripPrefix "Bearer " auth_str with
    | none => .rejected "invalid bearer token"
    | some token0 =>
      let token := trimMatches '"' (rustTrim token0)
      match decode_token now token (Token.user_refresh_token env) with
      | .error _ => .rejected "invalid or expired token"
      | .ok claim =>
        match Claims.fromJson claim with
        | none => .rejected "invalid token claims"
        | some claims =>
          match claims.sub with
          | .Text s =>
            match AuthUser.fromStr s with
            | some u => .admitted u
            | none => .rejected "invalid token claims"
          | .Json v =>
            match v.asStr with
            | some s =>
              match AuthUser.fromStr s with
              | some u => .admitted u
              | none => .rejected "invalid token claims"
            | none =>
              match AuthUser.fromJson v with
              | some u => .admitted u
              | none => .rejected "invalid token claims"

/-! ## Auth and password-reset services

Embedded from `src/src/app/features/user/auth/service.rs`,
`src/src/app/features/user/auth/mod.rs` and
`src/src/app/features/user/auth/password/service.rs`.  The user store is
modelled by the lookup function the services call; only the entity fields
these code paths read are carried.  Timestamps are seconds as `Int`. -/

/-- `str::to_lowercase` (modelled for ASCII; the lookups the claims exercise
use ASCII emails). -/
def to_lowercase (s : String) : String :=
  String.mk (s.data.map Char.toLower)

/-- The fields of the stored user entity read by `sign_in` and
`verify_code` (projection of `user::entity::Model`). -/
structure UserRecord where
  id : String
  personal_first_name : String
  personal_email_address : String
  password : String
  peripheral_authentication_code : Option String
  peripheral_timeout : Option Int
  deriving DecidableEq

/-- `user::LoginRequest`. -/
structure LoginRequest where
  email_address : String
  password : String

/-- `user::AuthUserResponse`. -/
structure AuthUserResponse where
  id : String
  access_token : String
  refresh_token : String
  deriving DecidableEq

/-- `AuthError`. -/
inductive AuthError where
  | InvalidCredentials
  | UserNotFound
  | EmailAlreadyExists
  | PasswordInvalid
  | TokenCreationFailed
  | DatabaseError (msg : String)
  deriving DecidableEq

/-- `AuthUser::from_user`. -/
def AuthUser.from_user (user : UserRecord) : AuthUser :=
  { id := user.id
    first_name := user.personal_first_name
    email_address := user.personal_email_address }

/-- `AuthService::sign_in`: look the user up by lowercased email (any store
error becomes `UserNotFound`), verify the password (a mismatch is
`InvalidCredentials`), then issue the access and refresh tokens. -/
def AuthService.sign_in (getByEmail : String → Option UserRecord) (env : Env)
    (now : Int) (request : LoginRequest) : Except AuthError AuthUserResponse :=
  match getByEmail (to_lowercase request.email_address) with
  | none => .error .UserNotFound
  | some user =>
    match verify_password user.password request.password with
    | .error _ => .error .PasswordInvalid
    | .ok is_valid =>
      if is_valid then
        let auth_user := AuthUser.from_user user
        .ok { id := auth_user.id
              access_token := create_token now auth_user.toJson (Token.user_access_token env)
              refresh_token := create_token now auth_user.toJson (Token.user_refresh_token env) }
      else .error .InvalidCredentials

/-- The response body the controller serializes: a success envelope or an
`ErrorResponse` with its message. -/
inductive SignInBody where
  | success (response : AuthUserResponse)
  | failure (message : String)
  deriving DecidableEq

/-- An HTTP response as status code and body. -/
structure HttpResponse where
  status : Nat
  body : SignInBody
  deriving DecidableEq

/-- `AuthController::sign_in`: maps the service result onto HTTP status
codes and messages. -/
def AuthController.sign_in (getByEmail : String → Option UserRecord) (env : Env)
    (now : Int) (request : LoginRequest) : HttpResponse :=
  match AuthService.sign_in getByEmail env now request with
  | .ok response => ⟨200, .success response⟩
  | .error .InvalidCredentials => ⟨401, .failure "Invalid credentials"⟩
  | .error .UserNotFound => ⟨404, .failure "User not found"⟩
  | .error (.DatabaseError msg) => ⟨500, .failure ("Database error: " ++ msg)⟩
  | .error _ => ⟨500, .failure "Failed to sign in"⟩

/-- `PasswordError`. -/
inductive PasswordError where
  | UserNotFound
  | CodeExpired
  | InvalidCode
  | PasswordMismatch
  | TokenCreationFailed
  | DatabaseError (msg : String)
  deriving DecidableEq

/-- `user::VerifyResetCodeRequest`. -/
structure VerifyResetCodeRequest where
  email_address : String
  auth_code : String

/-- `user::VerifyCodeResponse`. -/
structure VerifyCodeResponse where
  token : String
  message : String
  deriving DecidableEq

/-- `PasswordService::verify_code`: look the user up by lowercased email,
require the stored one-time code to match, require the stored timeout to be
present and at most 7 days old, then issue a token for the user under the
user-refresh token class. -/
def PasswordService.verify_code (getByEmail : String → Option UserRecord) (env : Env)
    (now : Int) (req : VerifyResetCodeRequest) : Except PasswordError VerifyCodeResponse :=
  match getByEmail (to_lowercase req.email_address) with
  | none => .error .UserNotFound
  | some user =>
    match user.peripheral_authentication_code with
    | some stored =>
      if stored = req.auth_code then
        match user.peripheral_timeout with
        | none => .error .CodeExpired
        | some timeout =>
          if now - timeout > 7 * 24 * 3600 then .error .CodeExpired
          else
            let auth_user : AuthUser :=
              { id := user.id
                first_name := user.personal_first_name
                email_address := user.personal_email_address }
            .ok { token := create_token now auth_user.toJson (Token.user_refresh_token env)
                  message := "code has been verify successful" }
      else .error .InvalidCode
    | none => .error .InvalidCode

/-! ## Codec and normalization lemmas -/

theorem digitChar_toNat (d : Nat) (h : d < 10) : (digitChar d).toNat = 48 + d := by
  interval_cases d <;> rfl

theorem isDigitCh_digitChar (d : Nat) (h : d < 10) : isDigitCh (digitChar d) = true := by
  interval_cases d <;> rfl

theorem readDigits_append (ds : List Nat) (h : ∀ d ∈ ds, d < 10) (rest : List Char)
    (hr : ∀ c ∈ rest.head?, isDigitCh c = false) :
    readDigits (ds.map digitChar ++ rest) = (ds, rest) := by
  induction ds with
  | nil =>
    cases rest with
    | nil => rfl
    | cons c cs =>
      have := hr c (by simp)
      simp [readDigits, this]
  | cons d ds ih =>
    have hd : d < 10 := h d (by simp)
    have hds : ∀ x ∈ ds, x < 10 := fun x hx => h x (by simp [hx])
    simp only [List.map_cons, List.cons_append, readDigits,
      isDigitCh_digitChar d hd, if_true, List.append_eq]
    rw [ih hds]
    simp [digitChar_toNat d hd]

theorem natDigits_lt (f n : Nat) : ∀ d ∈ natDigits f n, d < 10 := by
  induction f generalizing n with
  | zero => cases n <;> simp [natDigits]
  | succ f ih =>
    cases n with
    | zero => simp [natDigits]
    | succ m =>
      intro d hd
      simp only [natDigits, List.mem_cons] at hd
      rcases hd with h | h
      · subst h; exact Nat.mod_lt _ (by norm_num)
      · exact ih _ d h

theorem ofDigits_natDigits (f n : Nat) (h : n ≤ f) :
    Nat.ofDigits 10 (natDigits f n) = n := by
  induction f generalizing n with
  | zero =>
    interval_cases n
    simp [natDigits, Nat.ofDigits]
  | succ f ih =>
    cases n with
    | zero => simp [natDigits, Nat.ofDigits]
    | succ m =>
      have hdiv : (m + 1) / 10 ≤ f := by
        have := Nat.div_lt_self (Nat.succ_pos m) (by norm_num : 1 < 10)
        omega
      simp only [natDigits, Nat.ofDigits_cons, ih _ hdiv]
      omega

theorem decNat_encNat (n : Nat) (rest : List Char) :
    decNat (encNat n ++ rest) = some (n, rest) := by
  have hd : ∀ d ∈ natDigits n n, d < 10 := natDigits_lt n n
  have hcolon : ∀ c ∈ (':' :: rest).head?, isDigitCh c = false := by
    intro c hc
    simp only [List.head?_cons, Option.mem_def, Option.some.injEq] at hc
    subst hc; rfl
  simp only [encNat, decNat, List.append_assoc, List.singleton_append,
    readDigits_append _ hd (':' :: rest) hcolon]
  simp [ofDigits_natDigits n n le_rfl]

theorem decStr_encStr (s : String) (rest : List Char) :
    decStr (encStr s ++ rest) = some (s, rest) := by
  simp only [encStr, decStr, List.append_assoc, decNat_encNat]
  simp [List.take_left, List.drop_left]

theorem decInt_encInt (i : Int) (rest : List Char) :
    decInt (encInt i ++ rest) = some (i, rest) := by
  cases i <;> simp [encInt, decInt, decNat_encNat]

theorem jparse_leaf (j : Json) (hj : j.isLeaf = true) (fuel : Nat) (hfuel : 1 ≤ fuel)
    (rest : List Char) : jparse fuel (jencode j ++ rest) = some (j, rest) := by
  obtain ⟨f, rfl⟩ : ∃ f, fuel = f + 1 := ⟨fuel - 1, by omega⟩
  cases j with
  | null => simp [jencode, jparse]
  | bool b => cases b <;> simp [jencode, jparse]
  | num i => simp [jencode, jparse, decInt_encInt]
  | str s => simp [jencode, jparse, decStr_encStr]
  | arr xs => simp [Json.isLeaf] at hj
  | obj fs => simp [Json.isLeaf] at hj

theorem jparseFields_leaves (fs : List (String × Json))
    (hf : ∀ p ∈ fs, (p.2).isLeaf = true) (fuel : Nat) (hfuel : fs.length < fuel)
    (rest : List Char) :
    jparseFields fuel fs.length (jencodeFields fs ++ rest) = some (fs, rest) := by
  induction fs generalizing fuel with
  | nil =>
    cases fuel <;> simp [jencodeFields, jparseFields]
  | cons p ps ih =>
    obtain ⟨k, v⟩ := p
    have hv : v.isLeaf = true := hf (k, v) (by simp)
    have hps : ∀ q ∈ ps, (q.2).isLeaf = true := fun q hq => hf q (by simp [hq])
    obtain ⟨f, rfl⟩ : ∃ f, fuel = f + 1 := ⟨fuel - 1, by simp at hfuel; omega⟩
    have hf2 : ps.length < f := by simp at hfuel; omega
    simp only [List.length_cons, jencodeFields, List.append_assoc, jparseFields,
      decStr_encStr, jparse_leaf v hv f (by omega), ih hps f hf2]

theorem jparse_flat_obj (fs : List (String × Json))
    (hf : ∀ p ∈ fs, (p.2).isLeaf = true) (fuel : Nat) (hfuel : fs.length + 1 < fuel)
    (rest : List Char) :
    jparse fuel (jencode (Json.obj fs) ++ rest) = some (Json.obj fs, rest) := by
  obtain ⟨f, rfl⟩ : ∃ f, fuel = f + 1 := ⟨fuel - 1, by omega⟩
  have hf2 : fs.length < f := by omega
  simp [jencode, jparse, decNat_encNat, jparseFields_leaves fs hf f hf2 rest]

theorem one_le_length_encNat (n : Nat) : 1 ≤ (encNat n).length := by
  simp [encNat]

theorem length_le_jencodeFields (fs : List (String × Json)) :
    fs.length ≤ (jencodeFields fs).length := by
  induction fs with
  | nil => simp [jencodeFields]
  | cons p ps ih =>
    obtain ⟨k, v⟩ := p
    have h1 := one_le_length_encNat k.data.length
    simp only [jencodeFields, List.length_cons, List.length_append, encStr]
    omega

theorem jsonParse_jsonPrint_flat (fs : List (String × Json))
    (hf : ∀ p ∈ fs, (p.2).isLeaf = true) :
    jsonParse (jsonPrint (Json.obj fs)) = some (Json.obj fs) := by
  have hlen : fs.length + 1 < (jencode (Json.obj fs)).length + 1 := by
    have h1 := length_le_jencodeFields fs
    have h2 := one_le_length_encNat fs.length
    simp only [jencode, List.length_cons, List.length_append]
    omega
  have h := jparse_flat_obj fs hf ((jencode (Json.obj fs)).length + 1) hlen []
  simp only [List.append_nil] at h
  simp [jsonParse, jsonPrint, h]

theorem decAlg_encAlg (a : Alg) : decAlg (encAlg a) = some a := by
  cases a <;> rfl

theorem jwtParse_jwtEncode (t : Jwt) : jwtParse (String.mk (jwtEncode t)) = some t := by
  obtain ⟨alg, payload, sigAlg, sigKey, sigMsg⟩ := t
  simp [jwtParse, jwtEncode, decAlg_encAlg, decStr_encStr]

theorem trimBy_sentinel (p : Char → Bool) (c d : Char) (m : List Char)
    (hc : p c = false) (hd : p d = false) :
    trimBy p (c :: (m ++ [d])) = c :: (m ++ [d]) := by
  have h1 : List.dropWhile p (c :: (m ++ [d])) = c :: (m ++ [d]) := by
    simp [List.dropWhile_cons, hc]
  have h2 : (c :: (m ++ [d])).reverse = d :: (m.reverse ++ [c]) := by
    simp
  have h3 : List.dropWhile p (d :: (m.reverse ++ [c])) = d :: (m.reverse ++ [c]) := by
    simp [List.dropWhile_cons, hd]
  simp [trimBy, h1, h2, h3]

theorem string_mk_data (s : String) : String.mk s.data = s := by
  cases s
  rfl

theorem b64DecodeGo_encode (bytes : List Nat) (fuel : Nat) (hfuel : bytes.length ≤ fuel) :
    b64DecodeGo fuel ((bytes.map encNat).flatten) = some bytes := by
  induction bytes generalizing fuel with
  | nil =>
    cases fuel <;> simp [b64DecodeGo]
  | cons b bs ih =>
    obtain ⟨f, rfl⟩ : ∃ f, fuel = f + 1 := ⟨fuel - 1, by simp at hfuel; omega⟩
    have hbs : bs.length ≤ f := by simp at hfuel; omega
    simp only [List.map_cons, List.flatten_cons]
    have hne : encNat b ++ (bs.map encNat).flatten ≠ [] := by simp [encNat]
    obtain ⟨c, cs, hc⟩ := List.exists_cons_of_ne_nil hne
    have hdec : decNat (c :: cs) = some (b, (bs.map encNat).flatten) := by
      rw [← hc]; exact decNat_encNat b _
    rw [hc]
    simp [b64DecodeGo, hdec, ih f hbs]

theorem b64Decode_b64Encode (bytes : List Nat) :
    b64Decode (b64Encode bytes) = some bytes :=
  b64DecodeGo_encode bytes _ (by
    simp only [b64Encode, b64Decode]
    calc bytes.length = ((bytes.map encNat).map List.length).length := by simp
      _ ≤ ((bytes.map encNat).map List.length).sum := by
          apply List.length_le_sum_of_one_le
          intro x hx
          simp only [List.mem_map] at hx
          obtain ⟨y, ⟨a, _, rfl⟩, rfl⟩ := hx
          exact one_le_length_encNat a
      _ = ((bytes.map encNat).flatten).length := (List.length_flatten _).symm)

theorem aeadDecrypt_aeadEncrypt (key nonce pt : List Nat) :
    aeadDecrypt key nonce (aeadEncrypt key nonce pt) = some pt := by
  unfold aeadDecrypt aeadEncrypt
  have hpre : (([key.length] ++ key ++ [nonce.length] ++ nonce).isPrefixOf
      ([key.length] ++ key ++ [nonce.length] ++ nonce ++ pt)) = true := by
    rw [List.isPrefixOf_iff_prefix]
    exact List.prefix_append _ _
  simp [hpre, List.drop_left]

theorem codesToString_stringToCodes (s : String) :
    codesToString (stringToCodes s) = some s := by
  have hvalid : ∀ n ∈ stringToCodes s, Nat.isValidChar n := by
    intro n hn
    simp only [stringToCodes, List.mem_map] at hn
    obtain ⟨c, _, rfl⟩ := hn
    exact c.valid
  simp only [codesToString]
  rw [if_pos hvalid]
  simp only [stringToCodes, List.map_map]
  rw [show ((fun n => Char.ofNat n) ∘ Char.toNat) = id from funext fun c => Char.ofNat_toNat c]
  simp [string_mk_data]

theorem parseDigest_hash_password (salt plain : String) :
    parseDigest (hash_password salt plain) = some (salt, plain) := by
  simp only [parseDigest, hash_password, decStr_encStr]
  rw [show encStr plain = encStr plain ++ [] from (List.append_nil _).symm, decStr_encStr]

theorem stripPrefix_append (p s : String) :
    stripPrefix p (p ++ s) = some s := by
  have hpre : (p.data.isPrefixOf (p ++ s).data) = true := by
    rw [String.data_append, List.isPrefixOf_iff_prefix]
    exact List.prefix_append _ _
  simp [stripPrefix, hpre, String.data_append, List.drop_left, string_mk_data]

theorem normalizeToken_jwtEncode (t : Jwt) :
    normalizeToken (String.mk (jwtEncode t)) = String.mk (jwtEncode t) := by
  obtain ⟨alg, payload, sigAlg, sigKey, sigMsg⟩ := t
  simp only [normalizeToken, rustTrim, trimMatches, jwtEncode]
  rw [show ('J' :: encAlg alg ::
      (encStr payload ++ (encAlg sigAlg :: (encStr sigKey ++ encStr sigMsg)) ++ ['.']))
    = 'J' :: ((encAlg alg ::
      (encStr payload ++ (encAlg sigAlg :: (encStr sigKey ++ encStr sigMsg)))) ++ ['.'])
    from by simp]
  rw [trimBy_sentinel isWs 'J' '.' _ rfl rfl]
  rw [trimBy_sentinel (fun x => x = '"') 'J' '.' _ (by simp) (by simp)]

/-! ## Issued-token round-trip lemmas -/

theorem jsonParse_new_text (now : Int) (payload : Json) (e : Int) :
    jsonParse (jsonPrint (Claims.new_text now payload e).toJson) =
      some ((Claims.new_text now payload e).toJson) := by
  have hf : ∀ p ∈ [("sub", Json.str (jsonPrint payload)), ("exp", Json.num (now + e))],
      (p.2).isLeaf = true := by
    intro p hp
    fin_cases hp <;> rfl
  exact jsonParse_jsonPrint_flat _ hf

theorem jsonParse_authUser (u : AuthUser) :
    jsonParse (jsonPrint u.toJson) = some u.toJson := by
  have hf : ∀ p ∈ [("id", Json.str u.id), ("first_name", Json.str u.first_name),
      ("email_address", Json.str u.email_address)], (p.2).isLeaf = true := by
    intro p hp
    fin_cases hp <;> rfl
  exact jsonParse_jsonPrint_flat _ hf

theorem fromJson_toJson (u : AuthUser) : AuthUser.fromJson u.toJson = some u := rfl

theorem fromJson_new_text (now : Int) (payload : Json) (e : Int) :
    Claims.fromJson ((Claims.new_text now payload e).toJson) =
      some ⟨Sub.Json (.str (jsonPrint payload)), now + e⟩ := rfl

theorem jExp_new_text (now : Int) (payload : Json) (e : Int) :
    jExp ((Claims.new_text now payload e).toJson) = some (now + e) := rfl

theorem from_claims_roundtrip (u : AuthUser) (e : Int) :
    AuthUser.from_claims ⟨Sub.Json (.str (jsonPrint u.toJson)), e⟩ = .ok u := by
  simp [AuthUser.from_claims, Json.asStr, AuthUser.fromStr, jsonParse_authUser,
    fromJson_toJson]

theorem decode_token_create_token (payload : Json) (tt : TokenParams) (t0 t1 : Int)
    (h : ¬ t0 + tt.expiry_seconds < t1) :
    decode_token t1 (create_token t0 payload tt) tt =
      .ok ((Claims.new_text t0 payload tt.expiry_seconds).toJson) := by
  have hnorm := normalizeToken_jwtEncode
    { alg := .HS256,
      payload := jsonPrint (Claims.new_text t0 payload tt.expiry_seconds).toJson,
      sigAlg := .HS256, sigKey := tt.key,
      sigMsg := jsonPrint (Claims.new_text t0 payload tt.expiry_seconds).toJson }
  simp only [decode_token, create_token, jwtEncodeToken]
  rw [hnorm]
  simp only [jwtDecode, jwtParse_jwtEncode]
  rw [if_pos (show Alg.HS256 ∈ [Alg.HS256, Alg.HS384, Alg.HS512] by simp)]
  rw [if_pos (by simp)]
  simp only [jsonParse_new_text, jExp_new_text]
  rw [if_neg h]

theorem fromStr_print (u : AuthUser) : AuthUser.fromStr (jsonPrint u.toJson) = some u := by
  simp [AuthUser.fromStr, jsonParse_authUser, fromJson_toJson]

theorem trim_then_quotes_eq_normalize (s : String) :
    trimMatches '"' (rustTrim s) = normalizeToken s := rfl

theorem asStr_new_text (now : Int) (payload : Json) (e : Int) :
    ((Claims.new_text now payload e).toJson).asStr = none := rfl

theorem decode_token_ok_sound (now : Int) (token : String) (tt : TokenParams) (j : Json)
    (h : decode_token now token tt = .ok j) :
    ∃ t : Jwt, jwtParse (normalizeToken token) = some t ∧
      t.alg ∈ [Alg.HS256, Alg.HS384, Alg.HS512] ∧ t.sigAlg = t.alg ∧
      t.sigKey = tt.key ∧ t.sigMsg = t.payload ∧
      jsonParse t.payload = some j ∧ ∃ e, jExp j = some e ∧ now ≤ e := by
  simp only [decode_token, jwtDecode] at h
  cases hp : jwtParse (normalizeToken token) with
  | none => simp only [hp] at h; simp at h
  | some t =>
    simp only [hp] at h
    by_cases halg : t.alg ∈ [Alg.HS256, Alg.HS384, Alg.HS512]
    · rw [if_pos halg] at h
      by_cases hsig : t.sigAlg = t.alg ∧ t.sigKey = tt.key ∧ t.sigMsg = t.payload
      · rw [if_pos hsig] at h
        cases hj : jsonParse t.payload with
        | none => simp only [hj] at h; simp at h
        | some j0 =>
          simp only [hj] at h
          cases he : jExp j0 with
          | none => simp only [he] at h; simp at h
          | some e =>
            simp only [he] at h
            by_cases hlt : e < now
            · rw [if_pos hlt] at h; simp at h
            · rw [if_neg hlt] at h
              simp only [Except.ok.injEq] at h
              subst h
              exact ⟨t, rfl, halg, hsig.1, hsig.2.1, hsig.2.2, hj,
                e, he, not_lt.mp hlt⟩
      · rw [if_neg hsig] at h; simp at h
    · rw [if_neg halg] at h; simp at h

theorem decode_token_wrong_key (now : Int) (t : Jwt) (tt : TokenParams)
    (hk : t.sigKey ≠ tt.key) :
    ∃ msg, decode_token now (String.mk (jwtEncode t)) tt = .error (.JwtError msg) := by
  have hnorm := normalizeToken_jwtEncode t
  simp only [decode_token]
  rw [hnorm]
  simp only [jwtDecode, jwtParse_jwtEncode]
  by_cases halg : t.alg ∈ [Alg.HS256, Alg.HS384, Alg.HS512]
  · rw [if_pos halg, if_neg (fun hc => hk hc.2.1)]
    exact ⟨_, rfl⟩
  · rw [if_neg halg]
    exact ⟨_, rfl⟩

theorem require_user_auth_accept (env : Env) (now t0 : Int) (u : AuthUser)
    (h : ¬ t0 + (Token.user_access_token env).expiry_seconds < now) :
    require_user_auth env now
      ⟨some ("Bearer " ++ create_token t0 u.toJson (Token.user_access_token env))⟩ =
      .admitted u := by
  have h1 := stripPrefix_append "Bearer "
    (create_token t0 u.toJson (Token.user_access_token env))
  have h2 : normalizeToken (create_token t0 u.toJson (Token.user_access_token env)) =
      create_token t0 u.toJson (Token.user_access_token env) :=
    normalizeToken_jwtEncode _
  have h3 := decode_token_create_token u.toJson (Token.user_access_token env) t0 now h
  simp only [require_user_auth, h1, trim_then_quotes_eq_normalize, h2, h3,
    asStr_new_text, fromJson_new_text, from_claims_roundtrip]

theorem require_refresh_auth_accept (env : Env) (now t0 : Int) (u : AuthUser)
    (h : ¬ t0 + (Token.user_refresh_token env).expiry_seconds < now) :
    require_refresh_auth env now
      ⟨some ("Bearer " ++ create_token t0 u.toJson (Token.user_refresh_token env))⟩ =
      .admitted u := by
  have h1 := stripPrefix_append "Bearer "
    (create_token t0 u.toJson (Token.user_refresh_token env))
  have h2 : normalizeToken (create_token t0 u.toJson (Token.user_refresh_token env)) =
      create_token t0 u.toJson (Token.user_refresh_token env) :=
    normalizeToken_jwtEncode _
  have h3 := decode_token_create_token u.toJson (Token.user_refresh_token env) t0 now h
  simp only [require_refresh_auth, h1, trim_then_quotes_eq_normalize, h2, h3,
    fromJson_new_text, Json.asStr, fromStr_print]

theorem verify_password_hash (salt pw plain : String) :
    verify_password (hash_password salt pw) plain = .ok (decide (pw = plain)) := by
  simp [verify_password, parseDigest_hash_password]

theorem create_code_go_spec (rng : Nat → Nat) (length : Nat) :
    ∀ (fuel i : Nat) (acc : List Char),
    create_code_go rng length i fuel acc =
      acc ++ ((((List.range' i fuel).map rng).filter (fun b => b < 250)).take
        (length - acc.length)).map (fun b => digitChar (b % 10)) := by
  intro fuel
  induction fuel with
  | zero =>
    intro i acc
    simp [create_code_go]
  | succ f ih =>
    intro i acc
    by_cases hfull : length ≤ acc.length
    · simp only [create_code_go, if_pos hfull, Nat.sub_eq_zero_of_le hfull,
        List.take_zero, List.map_nil, List.append_nil]
    · simp only [create_code_go, if_neg hfull, List.range'_succ, List.map_cons,
        List.filter_cons]
      have hsub : length - acc.length = (length - (acc.length + 1)) + 1 := by omega
      by_cases hb : rng i < 250
      · rw [if_pos hb, ih]
        simp [hb, hsub, List.take_succ_cons]
      · rw [if_neg hb, ih]
        simp [hb]

theorem create_code_data (rng : Nat → Nat) (fuel length : Nat) :
    (create_code rng fuel length).data =
      (((acceptedBytes rng fuel).take length).map (fun b => digitChar (b % 10))) := by
  simp only [create_code, acceptedBytes, create_code_go_spec rng length fuel 0 [],
    List.nil_append, List.length_nil, Nat.sub_zero, List.range_eq_range']

theorem decode_token_create_token_expired (payload : Json) (tt : TokenParams)
    (t0 t1 : Int) (h : t0 + tt.expiry_seconds < t1) :
    decode_token t1 (create_token t0 payload tt) tt =
      .error (.JwtError "ExpiredSignature") := by
  have hnorm := normalizeToken_jwtEncode
    { alg := .HS256,
      payload := jsonPrint (Claims.new_text t0 payload tt.expiry_seconds).toJson,
      sigAlg := .HS256, sigKey := tt.key,
      sigMsg := jsonPrint (Claims.new_text t0 payload tt.expiry_seconds).toJson }
  simp only [decode_token, create_token, jwtEncodeToken]
  rw [hnorm]
  simp only [jwtDecode, jwtParse_jwtEncode]
  rw [if_pos (show Alg.HS256 ∈ [Alg.HS256, Alg.HS384, Alg.HS512] by simp)]
  rw [if_pos (by simp)]
  simp only [jsonParse_new_text, jExp_new_text]
  rw [if_pos h]

/-! ## Claim theorems -/

/-- C1: `decode_token` never accepts claims whose `expires_at` has passed at
verification time — a successful decode implies the embedded `exp` is at
least the verification time, independently of the signature check — and a
token issued under a class with zero or negative lifetime is rejected with
the expiry error as soon as verification happens strictly after issuance. -/
theorem decode_token_rejects_expired :
    (∀ (now : Int) (token : String) (tt : TokenParams) (j : Json),
        decode_token now token tt = .ok j → ∃ e, jExp j = some e ∧ now ≤ e) ∧
    (∀ (payload : Json) (tt : TokenParams) (t0 t1 : Int),
        tt.expiry_seconds ≤ 0 → t0 < t1 →
        decode_token t1 (create_token t0 payload tt) tt =
          .error (.JwtError "ExpiredSignature")) := by
  constructor
  · intro now token tt j h
    obtain ⟨t, _, _, _, _, _, _, e, he, hle⟩ := decode_token_ok_sound now token tt j h
    exact ⟨e, he, hle⟩
  · intro payload tt t0 t1 hexp hlt
    exact decode_token_create_token_expired payload tt t0 t1 (by omega)

/-- Witness for C1: a token issued at time 0 under a zero-lifetime class is
rejected as expired when verified at time 1. -/
theorem decode_token_rejects_expired_witness :
    decode_token 1 (create_token 0 Json.null ⟨"key", 0⟩) ⟨"key", 0⟩ =
      .error (.JwtError "ExpiredSignature") :=
  decode_token_rejects_expired.2 Json.null ⟨"key", 0⟩ 0 1 (by decide) (by decide)

/-- C3: a successful `decode_token` implies the token's declared algorithm is
in the HMAC family HS256/HS384/HS512, and a token declaring any other
algorithm (`none` or an asymmetric one) is rejected with the
unsupported-algorithm error regardless of its payload and signature parts. -/
theorem decode_token_hmac_only :
    (∀ (now : Int) (token : String) (tt : TokenParams) (j : Json),
        decode_token now token tt = .ok j →
        ∃ t, jwtParse (normalizeToken token) = some t ∧
          t.alg ∈ [Alg.HS256, Alg.HS384, Alg.HS512]) ∧
    (∀ (now : Int) (tt : TokenParams) (t : Jwt),
        t.alg ∉ [Alg.HS256, Alg.HS384, Alg.HS512] →
        decode_token now (String.mk (jwtEncode t)) tt =
          .error (.JwtError "InvalidAlgorithm")) := by
  constructor
  · intro now token tt j h
    obtain ⟨t, hp, halg, _⟩ := decode_token_ok_sound now token tt j h
    exact ⟨t, hp, halg⟩
  · intro now tt t halg
    have hnorm := normalizeToken_jwtEncode t
    simp only [decode_token]
    rw [hnorm]
    simp only [jwtDecode, jwtParse_jwtEncode]
    rw [if_neg halg]

/-- Witness for C3: a token declaring `alg = none`, whose symbolic signature
would otherwise verify under the class key, is rejected. -/
theorem decode_token_hmac_only_witness :
    decode_token 0 (String.mk (jwtEncode ⟨Alg.noAlg, "p", Alg.noAlg, "key", "p"⟩))
      ⟨"key", 100⟩ = .error (.JwtError "InvalidAlgorithm") :=
  decode_token_hmac_only.2 0 ⟨"key", 100⟩ ⟨Alg.noAlg, "p", Alg.noAlg, "key", "p"⟩
    (by decide)

/-- C5: a token created from a subject with `create_token` and decoded with
the same class within its lifetime yields exactly the issued claims, whose
`exp` is issuance time plus the class lifetime, and from which the program's
own reconstruction recovers the original subject with all fields unchanged. -/
theorem token_subject_roundtrip (u : AuthUser) (tt : TokenParams) (t0 t1 : Int)
    (h : ¬ t0 + tt.expiry_seconds < t1) :
    decode_token t1 (create_token t0 u.toJson tt) tt =
      .ok ((Claims.new_text t0 u.toJson tt.expiry_seconds).toJson) ∧
    ∃ c, Claims.fromJson ((Claims.new_text t0 u.toJson tt.expiry_seconds).toJson) =
        some c ∧
      c.exp = t0 + tt.expiry_seconds ∧ AuthUser.from_claims c = .ok u :=
  ⟨decode_token_create_token u.toJson tt t0 t1 h,
    ⟨_, fromJson_new_text t0 u.toJson tt.expiry_seconds, rfl, from_claims_roundtrip u _⟩⟩

/-- Witness for C5: the spec's concrete scenario — issue the principal
`{id: "11111111-1111-1111-1111-111111111111", first_name: "A",
email_address: "a@x.com"}` and verify immediately. -/
theorem token_subject_roundtrip_witness :
    decode_token 0
        (create_token 0
          (AuthUser.toJson ⟨"11111111-1111-1111-1111-111111111111", "A", "a@x.com"⟩)
          ⟨"k", 3600⟩) ⟨"k", 3600⟩ =
      .ok ((Claims.new_text 0
        (AuthUser.toJson ⟨"11111111-1111-1111-1111-111111111111", "A", "a@x.com"⟩)
        (3600 : Int)).toJson) ∧
    ∃ c, Claims.fromJson ((Claims.new_text 0
        (AuthUser.toJson ⟨"11111111-1111-1111-1111-111111111111", "A", "a@x.com"⟩)
        (3600 : Int)).toJson) = some c ∧
      c.exp = 0 + (3600 : Int) ∧
      AuthUser.from_claims c =
        .ok ⟨"11111111-1111-1111-1111-111111111111", "A", "a@x.com"⟩ :=
  token_subject_roundtrip ⟨"11111111-1111-1111-1111-111111111111", "A", "a@x.com"⟩
    ⟨"k", 3600⟩ 0 0 (by decide)

/-- C6: decrypting an encrypted blob on the same repository (same configured
secret) succeeds and returns exactly the original plaintext. -/
theorem encrypt_decrypt_roundtrip (secret : String) (nonce : List Nat) (data : String)
    (hn : nonce.length = 12) (blob : String)
    (henc : encrypt_data secret nonce data = .ok blob) :
    decrypt_data secret blob = .ok data := by
  simp only [encrypt_data, Except.ok.injEq] at henc
  subst henc
  simp only [decrypt_data, decrypt_dataT, b64Decode_b64Encode]
  have hct : 12 ≤ (nonce ++ aeadEncrypt (sha256 secret) nonce (stringToCodes data)).length := by
    simp [hn]
  rw [if_neg (by omega)]
  rw [show (nonce ++ aeadEncrypt (sha256 secret) nonce (stringToCodes data)).take 12 = nonce
      from by rw [← hn]; exact List.take_left _ _]
  rw [show (nonce ++ aeadEncrypt (sha256 secret) nonce (stringToCodes data)).drop 12 =
      aeadEncrypt (sha256 secret) nonce (stringToCodes data)
      from by rw [← hn]; exact List.drop_left _ _]
  rw [aeadDecrypt_aeadEncrypt]
  simp [codesToString_stringToCodes]

/-- Witness for C6: a concrete plaintext round-trips through
`encrypt_data`/`decrypt_data` under a fixed nonce. -/
theorem encrypt_decrypt_roundtrip_witness :
    decrypt_data "service-secret"
      (b64Encode ([0, 1, 2, 3, 4, 5, 6, 7, 8, 9, 10, 11] ++
        aeadEncrypt (sha256 "service-secret") [0, 1, 2, 3, 4, 5, 6, 7, 8, 9, 10, 11]
          (stringToCodes "hello"))) = .ok "hello" :=
  encrypt_decrypt_roundtrip "service-secret" [0, 1, 2, 3, 4, 5, 6, 7, 8, 9, 10, 11]
    "hello" (by decide) _ rfl

/-- C7: an input whose base64url decoding yields fewer than 12 raw bytes is
rejected by `decrypt_data` with the malformed-ciphertext error
(`JwtError "Invalid encrypted data format"` in the code's error type) and
the AEAD decryption primitive is never invoked. -/
theorem decrypt_short_blob_malformed (secret s : String) (raw : List Nat)
    (hdec : b64Decode s = some raw) (hlen : raw.length < 12) :
    decrypt_data secret s = .error (.JwtError "Invalid encrypted data format") ∧
    (decrypt_dataT secret s).2 = false := by
  have h : decrypt_dataT secret s =
      (.error (.JwtError "Invalid encrypted data format"), false) := by
    simp only [decrypt_dataT, hdec]
    rw [if_pos hlen]
  exact ⟨by simp [decrypt_data, h], by simp [h]⟩

/-- Witness for C7: a blob decoding to three raw bytes is rejected without
any AEAD call. -/
theorem decrypt_short_blob_malformed_witness :
    decrypt_data "secret" (b64Encode [1, 2, 3]) =
        .error (.JwtError "Invalid encrypted data format") ∧
    (decrypt_dataT "secret" (b64Encode [1, 2, 3])).2 = false :=
  decrypt_short_blob_malformed "secret" (b64Encode [1, 2, 3]) [1, 2, 3]
    (b64Decode_b64Encode [1, 2, 3]) (by decide)

/-- C9: verifying a password against its own hash succeeds with `true`;
verifying a different password succeeds with `false` (a mismatch is not an
error); and `verify_password` only errors when the digest string itself is
unparseable. -/
theorem password_hash_verify :
    (∀ salt W : String, verify_password (hash_password salt W) W = .ok true) ∧
    (∀ salt W1 W2 : String, W1 ≠ W2 →
        verify_password (hash_password salt W1) W2 = .ok false) ∧
    (∀ (digest plain : String) (err : EncryptionError),
        verify_password digest plain = .error err → parseDigest digest = none) := by
  refine ⟨?_, ?_, ?_⟩
  · intro salt W
    simp [verify_password_hash]
  · intro salt W1 W2 hne
    simp [verify_password_hash, hne]
  · intro digest plain err h
    cases hp : parseDigest digest with
    | none => rfl
    | some p =>
      simp only [verify_password, hp] at h
      exact Except.noConfusion h

/-- Witness for C9: a mismatching password yields `Ok false`, not an error. -/
theorem password_hash_verify_witness :
    verify_password (hash_password "somesalt" "pw-one") "pw-two" = .ok false :=
  password_hash_verify.2.1 "somesalt" "pw-one" "pw-two" (by decide)

theorem digitChar_bound (d : Nat) (h : d < 10) : '0' ≤ digitChar d ∧ digitChar d ≤ '9' := by
  interval_cases d <;> exact ⟨by decide, by decide⟩

/-- C8: when the byte stream offers at least `length` accepted bytes,
`create_code` returns exactly `length` characters, each an ASCII digit,
equal to the rejection-sampled stream — bytes `≥ 250` discarded, each
accepted byte `b` contributing the digit `b % 10` — and each digit value is
hit by exactly 25 of the 250 accepted byte values (uniformity). -/
theorem create_code_digits (rng : Nat → Nat) (fuel length : Nat)
    (h : length ≤ (acceptedBytes rng fuel).length) :
    (create_code rng fuel length).data =
      ((acceptedBytes rng fuel).take length).map (fun b => digitChar (b % 10)) ∧
    (create_code rng fuel length).data.length = length ∧
    (∀ c ∈ (create_code rng fuel length).data, '0' ≤ c ∧ c ≤ '9') ∧
    (∀ d : Nat, d < 10 →
      ((List.range 250).filter (fun b => b % 10 = d)).length = 25) := by
  refine ⟨create_code_data rng fuel length, ?_, ?_, ?_⟩
  · rw [create_code_data]
    simp only [List.length_map, List.length_take]
    omega
  · intro c hc
    rw [create_code_data] at hc
    simp only [List.mem_map] at hc
    obtain ⟨b, _, rfl⟩ := hc
    exact digitChar_bound (b % 10) (Nat.mod_lt _ (by norm_num))
  · intro d hd
    interval_cases d <;> decide

/-- Witness for C8: with the identity byte stream and six draws, a
four-digit code has exactly four characters, all digits. -/
theorem create_code_digits_witness :
    (create_code (fun i => i) 6 4).data.length = 4 ∧
    (∀ c ∈ (create_code (fun i => i) 6 4).data, '0' ≤ c ∧ c ≤ '9') :=
  ⟨(create_code_digits (fun i => i) 6 4 (by decide)).2.1,
   (create_code_digits (fun i => i) 6 4 (by decide)).2.2.1⟩

/-- C2 counterexample: with a store holding one user `a@x.com` (password
hash of `pw1`), a sign-in naming the unknown email `b@x.com` yields
`404 "User not found"` while a sign-in naming `a@x.com` with the wrong
password `pw2` yields `401 "Invalid credentials"` — the two responses are
distinguishable, so the claim's indistinguishability fails. -/
theorem sign_in_enumeration_counterexample :
    AuthController.sign_in
        (fun e => if e = "a@x.com" then
          some ⟨"u1", "A", "a@x.com", hash_password "salt" "pw1", none, none⟩
          else none)
        (fun _ => none) 0 ⟨"b@x.com", "pw1"⟩ =
      ⟨404, .failure "User not found"⟩ ∧
    AuthController.sign_in
        (fun e => if e = "a@x.com" then
          some ⟨"u1", "A", "a@x.com", hash_password "salt" "pw1", none, none⟩
          else none)
        (fun _ => none) 0 ⟨"a@x.com", "pw2"⟩ =
      ⟨401, .failure "Invalid credentials"⟩ ∧
    (⟨404, SignInBody.failure "User not found"⟩ : HttpResponse) ≠
      ⟨401, SignInBody.failure "Invalid credentials"⟩ :=
  ⟨by decide, by decide, by decide⟩

/-- C2 (amended): the two failure responses of `sign_in` are distinguishable:
an email with no stored user yields `404 "User not found"`, while a stored
user with a non-matching password yields `401 "Invalid credentials"`, so a
caller can learn whether an account exists. -/
theorem sign_in_distinct_responses (getByEmail : String → Option UserRecord)
    (env : Env) (now : Int) (request : LoginRequest) :
    (getByEmail (to_lowercase request.email_address) = none →
      AuthController.sign_in getByEmail env now request =
        ⟨404, .failure "User not found"⟩) ∧
    (∀ (user : UserRecord) (salt pw : String),
      getByEmail (to_lowercase request.email_address) = some user →
      user.password = hash_password salt pw → pw ≠ request.password →
      AuthController.sign_in getByEmail env now request =
        ⟨401, .failure "Invalid credentials"⟩) ∧
    (⟨404, SignInBody.failure "User not found"⟩ : HttpResponse) ≠
      ⟨401, SignInBody.failure "Invalid credentials"⟩ := by
  refine ⟨?_, ?_, by decide⟩
  · intro h
    simp [AuthController.sign_in, AuthService.sign_in, h]
  · intro user salt pw hu hpw hne
    simp only [AuthController.sign_in, AuthService.sign_in, hu, hpw,
      verify_password_hash, decide_eq_false hne]
    simp

/-- Witness for C2 (amended): the stored user with a wrong password gets the
401 response. -/
theorem sign_in_distinct_responses_witness :
    AuthController.sign_in
        (fun e => if e = "a@x.com" then
          some ⟨"u1", "A", "a@x.com", hash_password "salt" "pw1", none, none⟩
          else none)
        (fun _ => none) 0 ⟨"a@x.com", "pw2"⟩ =
      ⟨401, .failure "Invalid credentials"⟩ :=
  (sign_in_distinct_responses
      (fun e => if e = "a@x.com" then
        some ⟨"u1", "A", "a@x.com", hash_password "salt" "pw1", none, none⟩
        else none)
      (fun _ => none) 0 ⟨"a@x.com", "pw2"⟩).2.1
    ⟨"u1", "A", "a@x.com", hash_password "salt" "pw1", none, none⟩ "salt" "pw1"
    (by decide) rfl (by decide)

/-- C10: every token returned by a successful `verify_code` is created under
the user-refresh token class — key sourced from `USER_REFRESH_TOKEN`,
lifetime 8640000 seconds (100 days), unlike web-access's 300 seconds — and
the refresh-token gate admits it at any time within those 100 days. -/
theorem verify_code_issues_refresh_token (getByEmail : String → Option UserRecord)
    (env : Env) (now : Int) (req : VerifyResetCodeRequest) (resp : VerifyCodeResponse)
    (h : PasswordService.verify_code getByEmail env now req = .ok resp) :
    ∃ user : UserRecord, getByEmail (to_lowercase req.email_address) = some user ∧
      resp.token = create_token now
        (AuthUser.toJson ⟨user.id, user.personal_first_name, user.personal_email_address⟩)
        (Token.user_refresh_token env) ∧
      (Token.user_refresh_token env).expiry_seconds = 8640000 ∧
      (Token.user_refresh_token env).key =
        (env "USER_REFRESH_TOKEN").getD "default_user_refresh_token" ∧
      (Token.web_access_token env).expiry_seconds = 300 ∧
      (∀ t1 : Int, ¬ now + 8640000 < t1 →
        require_refresh_auth env t1 ⟨some ("Bearer " ++ resp.token)⟩ =
          .admitted ⟨user.id, user.personal_first_name, user.personal_email_address⟩) := by
  simp only [PasswordService.verify_code] at h
  cases hu : getByEmail (to_lowercase req.email_address) with
  | none =>
    simp only [hu] at h
    exact Except.noConfusion h
  | some user =>
    simp only [hu] at h
    cases hc : user.peripheral_authentication_code with
    | none =>
      simp only [hc] at h
      exact Except.noConfusion h
    | some stored =>
      simp only [hc] at h
      by_cases hs : stored = req.auth_code
      · rw [if_pos hs] at h
        cases ht : user.peripheral_timeout with
        | none =>
          simp only [ht] at h
          exact Except.noConfusion h
        | some timeout =>
          simp only [ht] at h
          by_cases hexp : now - timeout > 7 * 24 * 3600
          · rw [if_pos hexp] at h
            exact Except.noConfusion h
          · rw [if_neg hexp] at h
            simp only [Except.ok.injEq] at h
            subst h
            refine ⟨user, rfl, rfl, by norm_num [Token.user_refresh_token], rfl,
              by norm_num [Token.web_access_token], ?_⟩
            intro t1 ht1
            exact require_refresh_auth_accept env t1 now
              ⟨user.id, user.personal_first_name, user.personal_email_address⟩
              (by simp only [Token.user_refresh_token]; omega)
      · rw [if_neg hs] at h
        exact Except.noConfusion h

/-- Witness for C10: a concrete user with a stored matching code and a fresh
timeout gets a token of the user-refresh class, admitted by the refresh
gate. -/
theorem verify_code_issues_refresh_token_witness :
    ∃ user : UserRecord,
      (fun e => if e = "a@x.com" then
        some (⟨"u1", "A", "a@x.com", "h", some "123456", some 0⟩ : UserRecord)
        else none) (to_lowercase "a@x.com") = some user ∧
      (create_token 5 (AuthUser.toJson ⟨"u1", "A", "a@x.com"⟩)
          (Token.user_refresh_token (fun _ => none))) = create_token 5
        (AuthUser.toJson ⟨user.id, user.personal_first_name, user.personal_email_address⟩)
        (Token.user_refresh_token (fun _ => none)) ∧
      (Token.user_refresh_token (fun _ => none)).expiry_seconds = 8640000 ∧
      (Token.user_refresh_token (fun _ => none)).key =
        (((fun _ => none) : Env) "USER_REFRESH_TOKEN").getD "default_user_refresh_token" ∧
      (Token.web_access_token (fun _ => none)).expiry_seconds = 300 ∧
      (∀ t1 : Int, ¬ (5 : Int) + 8640000 < t1 →
        require_refresh_auth (fun _ => none) t1
          ⟨some ("Bearer " ++ create_token 5 (AuthUser.toJson ⟨"u1", "A", "a@x.com"⟩)
            (Token.user_refresh_token (fun _ => none)))⟩ =
          .admitted ⟨user.id, user.personal_first_name, user.personal_email_address⟩) :=
  verify_code_issues_refresh_token
    (fun e => if e = "a@x.com" then
      some (⟨"u1", "A", "a@x.com", "h", some "123456", some 0⟩ : UserRecord)
      else none)
    (fun _ => none) 5 ⟨"a@x.com", "123456"⟩
    ⟨create_token 5 (AuthUser.toJson ⟨"u1", "A", "a@x.com"⟩)
      (Token.user_refresh_token (fun _ => none)), "code has been verify successful"⟩
    rfl

theorem require_user_auth_admitted_sound (env : Env) (now : Int) (req : Request)
    (u : AuthUser) (hres : require_user_auth env now req = .admitted u) :
    ∃ (hdr token : String) (t : Jwt) (j : Json) (e : Int) (c : Claims),
      req.authorization = some hdr ∧
      stripPrefix "Bearer " hdr = some token ∧
      jwtParse (normalizeToken (normalizeToken token)) = some t ∧
      t.alg ∈ [Alg.HS256, Alg.HS384, Alg.HS512] ∧ t.sigAlg = t.alg ∧
      t.sigKey = (Token.user_access_token env).key ∧ t.sigMsg = t.payload ∧
      jsonParse t.payload = some j ∧ jExp j = some e ∧ now ≤ e ∧
      (match j.asStr with
       | some s => (jsonParse s).bind Claims.fromJson
       | none => Claims.fromJson j) = some c ∧
      AuthUser.from_claims c = .ok u := by
  cases hsome : req.authorization with
  | none =>
    simp only [require_user_auth, hsome] at hres
    exact GateResult.noConfusion hres
  | some hdr =>
    simp only [require_user_auth, hsome] at hres
    cases hstrip : stripPrefix "Bearer " hdr with
    | none =>
      simp only [hstrip] at hres
      exact GateResult.noConfusion hres
    | some token =>
      simp only [hstrip, trim_then_quotes_eq_normalize] at hres
      cases hdec : decode_token now (normalizeToken token)
          (Token.user_access_token env) with
      | error err =>
        simp only [hdec] at hres
        exact GateResult.noConfusion hres
      | ok j =>
        simp only [hdec] at hres
        cases hcl : (match j.asStr with
          | some s => (jsonParse s).bind Claims.fromJson
          | none => Claims.fromJson j) with
        | none =>
          simp only [hcl] at hres
          exact GateResult.noConfusion hres
        | some c =>
          simp only [hcl] at hres
          cases hfc : AuthUser.from_claims c with
          | error msg =>
            simp only [hfc] at hres
            exact GateResult.noConfusion hres
          | ok u0 =>
            simp only [hfc, GateResult.admitted.injEq] at hres
            subst hres
            obtain ⟨t, hp, halg, hsa, hsk, hsm, hpl, e, he, hle⟩ :=
              decode_token_ok_sound now (normalizeToken token)
                (Token.user_access_token env) j hdec
            exact ⟨hdr, token, t, j, e, c, rfl, hstrip, hp, halg, hsa, hsk, hsm,
              hpl, he, hle, hcl, hfc⟩

theorem decode_token_ok_complete (now : Int) (token : String) (tt : TokenParams)
    (t : Jwt) (j : Json) (e : Int)
    (hp : jwtParse (normalizeToken token) = some t)
    (halg : t.alg ∈ [Alg.HS256, Alg.HS384, Alg.HS512])
    (hsa : t.sigAlg = t.alg) (hsk : t.sigKey = tt.key) (hsm : t.sigMsg = t.payload)
    (hpl : jsonParse t.payload = some j) (he : jExp j = some e) (hle : now ≤ e) :
    decode_token now token tt = .ok j := by
  simp only [decode_token, jwtDecode, hp]
  rw [if_pos halg, if_pos ⟨hsa, hsk, hsm⟩]
  simp only [hpl, he]
  rw [if_neg (not_lt.mpr hle)]

/-- C4 (amended): the user gate rejects a request with no Authorization
header, a non-`Bearer` scheme, and any bearer token failing verification
under the user-access class (in particular one signed under a different
key); a request is admitted **exactly when** the normalized token parses,
declares an HMAC algorithm, is signed under the expected class's key,
carries an unexpired `exp`, and its subject reconstructs as an `AuthUser` —
and then the attached principal is that reconstruction; for a token issued
for a principal, the admitted principal equals it (in particular the ids
agree). -/
theorem require_user_auth_gate (env : Env) (now : Int) :
    (∀ req : Request, req.authorization = none →
      require_user_auth env now req = .rejected "missing authorization header") ∧
    (∀ (req : Request) (hdr : String), req.authorization = some hdr →
      stripPrefix "Bearer " hdr = none →
      require_user_auth env now req = .rejected "invalid bearer token") ∧
    (∀ (req : Request) (hdr token : String) (err : EncryptionError),
      req.authorization = some hdr → stripPrefix "Bearer " hdr = some token →
      decode_token now (normalizeToken token) (Token.user_access_token env) = .error err →
      require_user_auth env now req = .rejected "invalid or expired token") ∧
    (∀ t : Jwt, t.sigKey ≠ (Token.user_access_token env).key →
      require_user_auth env now ⟨some ("Bearer " ++ String.mk (jwtEncode t))⟩ =
        .rejected "invalid or expired token") ∧
    (∀ (req : Request) (u : AuthUser), require_user_auth env now req = .admitted u ↔
      ∃ (hdr token : String) (t : Jwt) (j : Json) (e : Int) (c : Claims),
        req.authorization = some hdr ∧
        stripPrefix "Bearer " hdr = some token ∧
        jwtParse (normalizeToken (normalizeToken token)) = some t ∧
        t.alg ∈ [Alg.HS256, Alg.HS384, Alg.HS512] ∧ t.sigAlg = t.alg ∧
        t.sigKey = (Token.user_access_token env).key ∧ t.sigMsg = t.payload ∧
        jsonParse t.payload = some j ∧ jExp j = some e ∧ now ≤ e ∧
        (match j.asStr with
         | some s => (jsonParse s).bind Claims.fromJson
         | none => Claims.fromJson j) = some c ∧
        AuthUser.from_claims c = .ok u) ∧
    (∀ (u : AuthUser) (t0 : Int),
      ¬ t0 + (Token.user_access_token env).expiry_seconds < now →
      require_user_auth env now
        ⟨some ("Bearer " ++ create_token t0 u.toJson (Token.user_access_token env))⟩ =
        .admitted u) := by
  refine ⟨?_, ?_, ?_, ?_, ?_, ?_⟩
  · intro req h
    simp [require_user_auth, h]
  · intro req hdr hsome hstrip
    simp [require_user_auth, hsome, hstrip]
  · intro req hdr token err hsome hstrip hdec
    simp only [require_user_auth, hsome, hstrip, trim_then_quotes_eq_normalize, hdec]
  · intro t hk
    obtain ⟨msg, hmsg⟩ :=
      decode_token_wrong_key now t (Token.user_access_token env) hk
    have h2 := normalizeToken_jwtEncode t
    simp only [require_user_auth, stripPrefix_append, trim_then_quotes_eq_normalize,
      h2, hmsg]
  · intro req u
    constructor
    · intro hres
      exact require_user_auth_admitted_sound env now req u hres
    · rintro ⟨hdr, token, t, j, e, c, hsome, hstrip, hp, halg, hsa, hsk, hsm,
        hpl, he, hle, hcl, hfc⟩
      have hdec := decode_token_ok_complete now (normalizeToken token)
        (Token.user_access_token env) t j e hp halg hsa hsk hsm hpl he hle
      simp only [require_user_auth, hsome, hstrip, trim_then_quotes_eq_normalize,
        hdec, hcl, hfc]
  · intro u t0 h
    exact require_user_auth_accept env now t0 u h

/-- Witness for C4 (amended): the user gate admits a freshly issued token
for a concrete principal and attaches that principal. -/
theorem require_user_auth_gate_witness :
    require_user_auth (fun _ => none) 0
      ⟨some ("Bearer " ++ create_token 0
        (AuthUser.toJson ⟨"11111111-1111-1111-1111-111111111111", "A", "a@x.com"⟩)
        (Token.user_access_token (fun _ => none)))⟩ =
      .admitted ⟨"11111111-1111-1111-1111-111111111111", "A", "a@x.com"⟩ :=
  (require_user_auth_gate (fun _ => none) 0).2.2.2.2.2
    ⟨"11111111-1111-1111-1111-111111111111", "A", "a@x.com"⟩ 0 (by decide)

/-- C4 counterexample: a token of the expected class that is correctly
signed and unexpired — it decodes successfully — is nevertheless rejected by
the gate because its subject (`null`) does not reconstruct as an `AuthUser`;
admission is not equivalent to "correctly signed and unexpired" alone. -/
theorem require_user_auth_counterexample :
    decode_token 0
        (create_token 0 Json.null (Token.user_access_token (fun _ => none)))
        (Token.user_access_token (fun _ => none)) =
      .ok ((Claims.new_text 0 Json.null
        (Token.user_access_token (fun _ => none)).expiry_seconds).toJson) ∧
    require_user_auth (fun _ => none) 0
        ⟨some ("Bearer " ++ create_token 0 Json.null
          (Token.user_access_token (fun _ => none)))⟩ =
      .rejected "invalid token claims" := by
  constructor
  · exact decode_token_create_token Json.null (Token.user_access_token (fun _ => none))
      0 0 (by decide)
  · rfl

end TradeServer
